import Mathlib

/-!
Verification of the hyvrex hypervariable-region extractor (`src/utils.rs`).

The pure string-level functions (`sequence_type`, `to_complement`,
`to_reverse_complement`, `primers_to_region`) are translated directly from
the source.  The approximate matcher (the `bio` crate's ambiguity-aware
Myers scanner) and the iterator minimum-selection are not part of this
repository's sources; they are modelled from the specification as an
executable edit-distance dynamic program (see the `Modelled from the spec`
doc comments).  The per-record, per-primer-pair orchestration of
`get_hypervar_regions` is embedded as `processPair` / `processPairs` /
`runRecords`, with Rust slice panics made explicit as an error value.
-/

deriving instance DecidableEq for Except

namespace Hyperex

/-- The DNA IUPAC alphabet string used by `sequence_type` in `utils.rs`. -/
def valid_dna_iupac : String := "ACGTRYSWKMBDHVN"

/-- The RNA IUPAC alphabet string used by `sequence_type` in `utils.rs`. -/
def valid_rna_iupac : String := "ACGURYSWKMBDHVN"

/-- The `Alphabet` enum from `utils.rs`. -/
inductive Alphabet where
  | Dna : Alphabet
  | Rna : Alphabet
deriving DecidableEq

/-- `sequence_type` from `utils.rs`: DNA if every char is in the DNA IUPAC
string, else RNA if every char is in the RNA IUPAC string, else `none`.
Rust's `str::contains(char)` is embedded as membership in the char list. -/
def sequence_type (sequence : String) : Option Alphabet :=
  if sequence.data.all (fun x => valid_dna_iupac.data.contains x) then
    some Alphabet.Dna
  else if sequence.data.all (fun x => valid_rna_iupac.data.contains x) then
    some Alphabet.Rna
  else
    none

/-- The DNA arm of the char match inside `to_complement` in `utils.rs`
(S and W fall through to the default arm and map to themselves). -/
def dnaComplementChar (x : Char) : Char :=
  if x = 'A' then 'T'
  else if x = 'T' then 'A'
  else if x = 'C' then 'G'
  else if x = 'G' then 'C'
  else if x = 'R' then 'Y'
  else if x = 'Y' then 'R'
  else if x = 'K' then 'M'
  else if x = 'M' then 'K'
  else if x = 'B' then 'V'
  else if x = 'V' then 'B'
  else if x = 'D' then 'H'
  else if x = 'H' then 'D'
  else if x = 'N' then 'N'
  else x

/-- The RNA arm of the char match inside `to_complement` in `utils.rs`. -/
def rnaComplementChar (x : Char) : Char :=
  if x = 'A' then 'U'
  else if x = 'U' then 'A'
  else if x = 'C' then 'G'
  else if x = 'G' then 'C'
  else if x = 'R' then 'Y'
  else if x = 'Y' then 'R'
  else if x = 'K' then 'M'
  else if x = 'M' then 'K'
  else if x = 'B' then 'V'
  else if x = 'V' then 'B'
  else if x = 'D' then 'H'
  else if x = 'H' then 'D'
  else if x = 'N' then 'N'
  else x

/-- `to_complement` from `utils.rs`: charwise complement for `"dna"` or
`"rna"`; any other alphabet tag leaves the initial empty string untouched. -/
def to_complement (primer alphabet : String) : String :=
  if alphabet = "dna" then String.mk (primer.data.map dnaComplementChar)
  else if alphabet = "rna" then String.mk (primer.data.map rnaComplementChar)
  else ""

/-- `to_reverse_complement` from `utils.rs`. -/
def to_reverse_complement (primer alphabet : String) : String :=
  String.mk ((to_complement primer alphabet).data.reverse)

/-- The static `PRIMER_TO_REGION` map from `utils.rs`, as an association
list in source order. -/
def PRIMER_TO_REGION : List (String × String) :=
  [("AGAGTTTGATCMTGGCTCAG", "v1"),
   ("CCTACGGGNGGCWGCAG", "v3"),
   ("GTGCCAGCMGCCGCGGTAA", "v4"),
   ("GTGYCAGCMGCCGCGGTAA", "v4"),
   ("AACMGGATTAGATACCCKG", "v5"),
   ("TAAAACTYAAAKGAATTGACGGGG", "v6"),
   ("YAACGAGCGCAACCC", "v7"),
   ("ACTGCTGCSYCCCGTAGGAGTCT", "v2"),
   ("ATTACCGCGGCTGCTGG", "v3"),
   ("GACTACHVGGGTATCTAATCC", "v4"),
   ("CCGTCAATTYMTTTRAGT", "v5"),
   ("GGACTACHVGGGTWTCTAAT", "v4"),
   ("CCCCGYCAATTCMTTTRAGT", "v5"),
   ("ACGTCATCCCCACCTTCC", "v7"),
   ("TACGGYTACCTTGTTAYGACTT", "v9")]

/-- `primers_to_region` from `utils.rs`: look up the sub-label of each of
the two primers (empty if absent, via `contains_key` then indexing), and
collapse to one copy exactly when both sub-labels are `"v4"`. -/
def primers_to_region (primers : List String) : String :=
  let first_part := (PRIMER_TO_REGION.lookup (primers.getD 0 "")).getD ""
  let second_part := (PRIMER_TO_REGION.lookup (primers.getD 1 "")).getD ""
  if first_part = "v4" ∧ second_part = "v4" then first_part
  else first_part ++ second_part

/-- The `ambigs` IUPAC equivalence table from `get_hypervar_regions` in
`utils.rs`, fed to the matcher builder. -/
def equivs : Char → List Char
  | 'M' => ['A', 'C']
  | 'R' => ['A', 'G']
  | 'W' => ['A', 'T']
  | 'S' => ['C', 'G']
  | 'Y' => ['C', 'T']
  | 'K' => ['G', 'T']
  | 'V' => ['A', 'C', 'G', 'M', 'R', 'S']
  | 'H' => ['A', 'C', 'T', 'M', 'W', 'Y']
  | 'D' => ['A', 'G', 'T', 'R', 'W', 'K']
  | 'B' => ['C', 'G', 'T', 'S', 'Y', 'K']
  | 'N' => ['A', 'C', 'G', 'T', 'M', 'R', 'W', 'S', 'Y', 'K', 'V', 'H', 'D', 'B']
  | _ => []

/-- Modelled from the spec: the ambiguity-aware symbol equality of the
matcher (the `bio` crate's Myers scanner with the `ambigs` table is not in
this repository's sources).  A pattern symbol and a text symbol are equal
when they are identical or either lies in the other's ambiguity class
(spec sections 3 and 4.4: the classes are used symmetrically). -/
def symMatch (p t : Char) : Bool :=
  p == t || (equivs p).contains t || (equivs t).contains p

/-- Modelled from the spec: one inner step of the edit-distance column
update.  Given the text symbol `tc`, the remaining pattern symbols, the
previous column starting at the diagonal entry, and the entry just
computed in the new column, produce the rest of the new column using the
standard insertion / deletion / substitution recurrence of section 4.4. -/
def dpStep (tc : Char) : List Char → List Nat → Nat → List Nat
  | [], _, _ => []
  | pc :: ps, prev, cur =>
    match prev with
    | [] => []
    | pdiag :: ptail =>
      let sub := pdiag + (if symMatch pc tc then 0 else 1)
      let c := Nat.min (cur + 1) (Nat.min (ptail.headD (pdiag + 1) + 1) sub)
      c :: dpStep tc ps ptail c

/-- Modelled from the spec: the initial edit-distance column (distance of
each pattern prefix against the empty text). -/
def initCol (p : List Char) : List Nat :=
  List.range (p.length + 1)

/-- Modelled from the spec: advance the semi-global edit-distance column by
one text symbol; the top entry is `0` because a match may start anywhere. -/
def nextCol (p : List Char) (tc : Char) (prev : List Nat) : List Nat :=
  0 :: dpStep tc p prev 0

/-- Modelled from the spec: scan the text one symbol at a time, recording
the bottom entry of each column. -/
def distsAux (p : List Char) : List Char → List Nat → List Nat
  | [], _ => []
  | tc :: ts, col =>
    let col2 := nextCol p tc col
    col2.getLastD 0 :: distsAux p ts col2

/-- Modelled from the spec: `endDists p t` lists, for every end position
`j` of the text (inclusive indexing, section 3), the minimum ambiguity-aware
edit distance of the pattern against a substring of `t` ending at `j`. -/
def endDists (p t : List Char) : List Nat :=
  distsAux p t (initCol p)

/-- Pair every entry of a list with its index, starting at `i`. -/
def withIdx : Nat → List Nat → List (Nat × Nat)
  | _, [] => []
  | i, d :: ds => (i, d) :: withIdx (i + 1) ds

/-- Modelled from the spec: the `find_all_lazy` stream of the matcher — all
`(end, distance)` pairs with distance within the mismatch bound, produced
in a single left-to-right scan of the text. -/
def find_all_lazy (p t : List Char) (k : Nat) : List (Nat × Nat) :=
  (withIdx 0 (endDists p t)).filter (fun x => decide (x.2 ≤ k))

/-- Modelled from the spec: `Iterator::min_by_key` on the second component,
as used on the match streams in `get_hypervar_regions`; when several
elements are equally minimal the first one is returned. -/
def min_by_key : List (Nat × Nat) → Option (Nat × Nat)
  | [] => none
  | x :: xs =>
    match min_by_key xs with
    | none => some x
    | some y => if y.2 < x.2 then some y else some x

/-- Modelled from the spec: the best hit of the matcher — the minimum
distance element of the left-to-right match stream, earliest end position
first on ties. -/
def bestHit (p t : List Char) (k : Nat) : Option (Nat × Nat) :=
  min_by_key (find_all_lazy p t k)

/-- Modelled from the spec: global edit-distance columns (both endpoints
fixed), used to recover the start offset of a hit. -/
def editDistanceCols (p : List Char) : List Char → List Nat → Nat → List Nat
  | [], col, _ => col
  | tc :: ts, col, j => editDistanceCols p ts ((j + 1) :: dpStep tc p col (j + 1)) (j + 1)

/-- Modelled from the spec: full ambiguity-aware edit distance between a
pattern and a text window. -/
def editDistance (p w : List Char) : Nat :=
  (editDistanceCols p w (initCol p) 0).getLastD 0

/-- Modelled from the spec: distance of the pattern against the window of
`t` from start `s` to inclusive end `e`. -/
def subDist (p t : List Char) (s e : Nat) : Nat :=
  editDistance p ((t.drop s).take (e + 1 - s))

/-- Modelled from the spec: `hit_at` start recovery (section 4.4 (b)) — the
start offset of a best alignment ending at `e`, earliest such start on
ties. -/
def hitStart (p t : List Char) (e : Nat) : Nat :=
  match min_by_key ((List.range (e + 2)).map (fun s => (s, subDist p t s e))) with
  | some x => x.1
  | none => 0

/-- One extracted region as written by `get_hypervar_regions` in
`utils.rs`: the attribute region label, the GFF start and end fields
(forward-match start, reverse-match start plus reverse-primer length), and
the cropped subsequence. -/
structure Emission where
  region : String
  startPos : Nat
  endPos : Nat
  subseq : List Char
deriving DecidableEq

/-- The ways a run of the extractor can abort: the spec-modelled matcher
width check (section 4.4: a pattern wider than the 64-bit word is a
configuration error), and a Rust slice panic from
`seq[forward_start..reverse_start + len]`. -/
inductive RunError where
  | patternTooLong : RunError
  | slicePanic : RunError
deriving DecidableEq

/-- The alphabet tag a record gets in `get_hypervar_regions` in
`utils.rs`: `"dna"` or `"rna"` from `sequence_type`, and the initial empty
string when classification fails. -/
def alphabetTag (seq : List Char) : String :=
  match sequence_type (String.mk seq) with
  | some Alphabet.Dna => "dna"
  | some Alphabet.Rna => "rna"
  | none => ""

/-- The body of the per-primer-pair loop of `get_hypervar_regions` in
`utils.rs`: build the two patterns (width-checked, spec-modelled as a
configuration error), take the best hit of each, and on two hits emit the
region `seq[forward_start .. reverse_start + reverse_primer_length]`; a
missing hit is a logged skip (`none`); an out-of-bounds slice is the Rust
panic, made explicit as `RunError.slicePanic`. -/
def processPair (seq : List Char) (alphabet : String) (pair : List String) (k : Nat) :
    Except RunError (Option Emission) :=
  if 64 < (pair.getD 0 "").data.length then Except.error RunError.patternTooLong
  else if 64 < (to_reverse_complement (pair.getD 1 "") alphabet).data.length then
    Except.error RunError.patternTooLong
  else
    match bestHit (pair.getD 0 "").data seq k,
        bestHit (to_reverse_complement (pair.getD 1 "") alphabet).data seq k with
    | some (fe, _), some (re, _) =>
      if hitStart (pair.getD 0 "").data seq fe ≤
            hitStart (to_reverse_complement (pair.getD 1 "") alphabet).data seq re +
              (pair.getD 1 "").length ∧
          hitStart (to_reverse_complement (pair.getD 1 "") alphabet).data seq re +
              (pair.getD 1 "").length ≤ seq.length then
        Except.ok (some
          ⟨primers_to_region pair,
           hitStart (pair.getD 0 "").data seq fe,
           hitStart (to_reverse_complement (pair.getD 1 "") alphabet).data seq re +
             (pair.getD 1 "").length,
           (seq.drop (hitStart (pair.getD 0 "").data seq fe)).take
             (hitStart (to_reverse_complement (pair.getD 1 "") alphabet).data seq re +
               (pair.getD 1 "").length -
               hitStart (pair.getD 0 "").data seq fe)⟩)
      else Except.error RunError.slicePanic
    | some _, none => Except.ok none
    | none, some _ => Except.ok none
    | none, none => Except.ok none

/-- The per-record loop over primer pairs of `get_hypervar_regions`:
emissions already written are kept even when a later pair aborts the run. -/
def processPairs (seq : List Char) (alphabet : String) (k : Nat) :
    List (List String) → List Emission × Option RunError
  | [] => ([], none)
  | pr :: rest =>
    match processPair seq alphabet pr k with
    | Except.error e => ([], some e)
    | Except.ok none => processPairs seq alphabet k rest
    | Except.ok (some em) =>
      let r := processPairs seq alphabet k rest
      (em :: r.1, r.2)

/-- The record loop of `get_hypervar_regions`: each record is classified
and processed against every primer pair; output already written is kept
when a record aborts the run. -/
def runRecords (pairs : List (List String)) (k : Nat) :
    List (List Char) → List Emission × Option RunError
  | [] => ([], none)
  | seq :: rest =>
    let r := processPairs seq (alphabetTag seq) k pairs
    match r.2 with
    | some e => (r.1, some e)
    | none =>
      let r2 := runRecords pairs k rest
      (r.1 ++ r2.1, r2.2)

/-- The symbols the claim counts as covered by the complement substitution
table: the literals A, C, G, T, U plus R, Y, K, M, B, V, D, H, S, W, N. -/
def coveredComplementChars : List Char :=
  ['A', 'C', 'G', 'T', 'U', 'R', 'Y', 'K', 'M', 'B', 'V', 'D', 'H', 'S', 'W', 'N']

example : primers_to_region ["CCTACGGGNGGCWGCAG", "GTGCCAGCMGCCGCGGTAA"] = "v3v4" := by decide
example : primers_to_region ["GTGCCAGCMGCCGCGGTAA", "GTGCCAGCMGCCGCGGTAA"] = "v4" := by decide
example : primers_to_region ["ZZZZZ", "AAAAAA"] = "" := by decide
example : to_complement "ATCGATCGATCGATCGRYKBVDHX" "dna" = "TAGCTAGCTAGCTAGCYRMVBHDX" := by decide
example : to_complement "AUCGAUCGAUCGAUCGRYKBVDHMXN" "rna" = "UAGCUAGCUAGCUAGCYRMVBHDKXN" := by decide
example : to_reverse_complement "GTGCCAGCMGCCGCGGTAAN" "dna" = "NTTACCGCGGCKGCTGGCAC" := by decide
example : sequence_type "ATCGMTGCAATCG" = some Alphabet.Dna := by decide
example : sequence_type "GUUUUAACCCAAM" = some Alphabet.Rna := by decide
example : sequence_type "ATCXXXRMGU" = none := by decide
example : endDists "AAAA".data "TTAAAA".data = [4, 4, 3, 2, 1, 0] := by decide
example : bestHit "AAAA".data "TTAAAA".data 0 = some (5, 0) := by decide
example : hitStart "AAAA".data "TTAAAA".data 5 = 2 := by decide
example : bestHit "AAAA".data "TTTTT".data 0 = none := by decide
example : bestHit "ANA".data "TGCGAAA".data 0 = some (6, 0) := by decide

lemma length_distsAux (p : List Char) (ts : List Char) : ∀ col : List Nat,
    (distsAux p ts col).length = ts.length := by
  induction ts with
  | nil => intro col; rfl
  | cons tc ts ih => intro col; simp [distsAux, ih]

lemma endDists_length (p t : List Char) : (endDists p t).length = t.length :=
  length_distsAux p t (initCol p)

lemma mem_withIdx (v : List Nat) : ∀ (i a b : Nat),
    (a, b) ∈ withIdx i v ↔ ∃ o, o < v.length ∧ a = i + o ∧ v.getD o 0 = b := by
  induction v with
  | nil => intro i a b; simp [withIdx]
  | cons d ds ih =>
    intro i a b
    simp only [withIdx, List.mem_cons, Prod.mk.injEq, ih (i + 1)]
    constructor
    · rintro (⟨rfl, rfl⟩ | ⟨o, ho, rfl, h2⟩)
      · exact ⟨0, by simp, by simp, by simp⟩
      · exact ⟨o + 1, by simpa using ho, by omega, by simpa using h2⟩
    · rintro ⟨o, ho, rfl, h2⟩
      cases o with
      | zero => exact Or.inl ⟨by omega, by simpa using h2.symm⟩
      | succ o2 =>
        exact Or.inr ⟨o2, by simpa using ho, by omega, by simpa using h2⟩

lemma pairwise_withIdx (v : List Nat) : ∀ i : Nat,
    (withIdx i v).Pairwise (fun a b => a.1 < b.1) := by
  induction v with
  | nil => intro i; simp [withIdx]
  | cons d ds ih =>
    intro i
    simp only [withIdx, List.pairwise_cons]
    refine ⟨?_, ih (i + 1)⟩
    intro b hb
    obtain ⟨o, _, h1, _⟩ := (mem_withIdx ds (i + 1) b.1 b.2).mp hb
    show i < b.1
    omega

lemma min_by_key_eq_none {l : List (Nat × Nat)} :
    min_by_key l = none ↔ l = [] := by
  cases l with
  | nil => simp [min_by_key]
  | cons x xs =>
    cases h : min_by_key xs with
    | none => simp [min_by_key, h]
    | some y =>
      simp only [min_by_key, h]
      split <;> simp

lemma min_by_key_mem {l : List (Nat × Nat)} {x : Nat × Nat}
    (h : min_by_key l = some x) : x ∈ l := by
  induction l generalizing x with
  | nil => simp [min_by_key] at h
  | cons a as ih =>
    cases h' : min_by_key as with
    | none =>
      simp only [min_by_key, h'] at h
      injection h with h
      simp [h]
    | some y =>
      simp only [min_by_key, h'] at h
      split at h
      · injection h with h
        subst h
        exact List.mem_cons_of_mem _ (ih h')
      · injection h with h
        simp [h]

lemma min_by_key_le {l : List (Nat × Nat)} {x : Nat × Nat}
    (h : min_by_key l = some x) : ∀ y ∈ l, x.2 ≤ y.2 := by
  induction l generalizing x with
  | nil => simp [min_by_key] at h
  | cons a as ih =>
    cases h' : min_by_key as with
    | none =>
      simp only [min_by_key, h'] at h
      injection h with h
      subst h
      have : as = [] := min_by_key_eq_none.mp h'
      subst this
      simp
    | some y =>
      simp only [min_by_key, h'] at h
      split at h <;> rename_i hcmp
      · injection h with h
        subst h
        intro z hz
        rcases List.mem_cons.mp hz with rfl | hz'
        · exact Nat.le_of_lt hcmp
        · exact ih h' z hz'
      · injection h with h
        subst h
        intro z hz
        rcases List.mem_cons.mp hz with rfl | hz'
        · exact Nat.le_refl _
        · exact Nat.le_trans (Nat.le_of_not_lt hcmp) (ih h' z hz')

lemma min_by_key_split {l : List (Nat × Nat)} {x : Nat × Nat}
    (h : min_by_key l = some x) :
    ∃ l1 l2, l = l1 ++ x :: l2 ∧ ∀ y ∈ l1, x.2 < y.2 := by
  induction l generalizing x with
  | nil => simp [min_by_key] at h
  | cons a as ih =>
    cases h' : min_by_key as with
    | none =>
      simp only [min_by_key, h'] at h
      injection h with h
      subst h
      exact ⟨[], as, rfl, by simp⟩
    | some y =>
      simp only [min_by_key, h'] at h
      split at h <;> rename_i hcmp
      · injection h with h
        subst h
        obtain ⟨l1, l2, rfl, hl1⟩ := ih h'
        refine ⟨a :: l1, l2, rfl, ?_⟩
        intro z hz
        rcases List.mem_cons.mp hz with rfl | hz'
        · exact hcmp
        · exact hl1 z hz'
      · injection h with h
        subst h
        exact ⟨[], as, rfl, by simp⟩

lemma mem_find_all_lazy {p t : List Char} {k : Nat} (a b : Nat) :
    (a, b) ∈ find_all_lazy p t k ↔
      a < t.length ∧ (endDists p t).getD a 0 = b ∧ b ≤ k := by
  unfold find_all_lazy
  rw [List.mem_filter]
  constructor
  · rintro ⟨hm, hk⟩
    obtain ⟨o, ho, h1, h2⟩ := (mem_withIdx _ 0 a b).mp hm
    have ha : a = o := by omega
    rw [endDists_length p t] at ho
    refine ⟨ha ▸ ho, ha ▸ h2, by simpa using hk⟩
  · rintro ⟨h1, h2, h3⟩
    refine ⟨(mem_withIdx _ 0 a b).mpr ⟨a, ?_, by omega, h2⟩, by simpa⟩
    rw [endDists_length]
    exact h1

/-- C1: the approximate matcher reports a hit iff some end position of the
text has ambiguity-aware edit distance within the mismatch bound, and the
reported hit has globally minimal distance, at the earliest end position
among equally minimal ones in the left-to-right scan. -/
theorem bestHit_min_earliest (p t : List Char) (k : Nat) :
    ((bestHit p t k).isSome = true ↔
      ∃ j, j < t.length ∧ (endDists p t).getD j 0 ≤ k)
    ∧ (∀ e d, bestHit p t k = some (e, d) →
        e < t.length ∧ (endDists p t).getD e 0 = d ∧ d ≤ k
        ∧ (∀ j, j < t.length → d ≤ (endDists p t).getD j 0)
        ∧ (∀ j, j < e → d < (endDists p t).getD j 0)) := by
  constructor
  · constructor
    · intro hs
      obtain ⟨x, hx⟩ := Option.isSome_iff_exists.mp hs
      obtain ⟨h1, h2, h3⟩ := (mem_find_all_lazy x.1 x.2).mp (min_by_key_mem hx)
      exact ⟨x.1, h1, by rw [h2]; exact h3⟩
    · rintro ⟨j, hj, hd⟩
      have hm : (j, (endDists p t).getD j 0) ∈ find_all_lazy p t k :=
        (mem_find_all_lazy j _).mpr ⟨hj, rfl, hd⟩
      rw [← Option.ne_none_iff_isSome]
      intro hnone
      exact List.ne_nil_of_mem hm (min_by_key_eq_none.mp hnone)
  · intro e d h
    obtain ⟨he, hde, hdk⟩ := (mem_find_all_lazy e d).mp (min_by_key_mem h)
    refine ⟨he, hde, hdk, ?_, ?_⟩
    · intro j hj
      by_cases hjk : (endDists p t).getD j 0 ≤ k
      · exact min_by_key_le h _ ((mem_find_all_lazy j _).mpr ⟨hj, rfl, hjk⟩)
      · omega
    · intro j hj
      have hjt : j < t.length := Nat.lt_trans hj he
      by_cases hjk : (endDists p t).getD j 0 ≤ k
      · have hmj : (j, (endDists p t).getD j 0) ∈ find_all_lazy p t k :=
          (mem_find_all_lazy j _).mpr ⟨hjt, rfl, hjk⟩
        obtain ⟨l1, l2, heq, hl1⟩ := min_by_key_split h
        have hpw : (find_all_lazy p t k).Pairwise (fun a b => a.1 < b.1) :=
          (pairwise_withIdx (endDists p t) 0).sublist (List.filter_sublist _)
        rw [heq] at hmj hpw
        rcases List.mem_append.mp hmj with hin1 | hin2
        · exact hl1 _ hin1
        · rcases List.mem_cons.mp hin2 with heq2 | hin3
          · injection heq2 with hje hd2
            omega
          · have hpw2 := (List.pairwise_append.mp hpw).2.1
            have := (List.pairwise_cons.mp hpw2).1 _ hin3
            simp only [] at this
            omega
      · omega

/-- Witness for C1 at a concrete pattern, text and threshold. -/
theorem bestHit_min_earliest_use :
    (endDists "AAAA".data "TTAAAA".data).getD 5 0 = 0 :=
  ((bestHit_min_earliest "AAAA".data "TTAAAA".data 0).2 5 0 (by decide)).2.1

/-- C3 counterexample: the two v3 primers both have sub-label `"v3"`, yet
`primers_to_region` returns the concatenation `"v3v3"`, not the collapsed
`"v3"` the claim demands for every identical non-empty sub-label. -/
theorem region_label_collapse_cex :
    (PRIMER_TO_REGION.lookup "CCTACGGGNGGCWGCAG").getD "" = "v3" ∧
    (PRIMER_TO_REGION.lookup "ATTACCGCGGCTGCTGG").getD "" = "v3" ∧
    primers_to_region ["CCTACGGGNGGCWGCAG", "ATTACCGCGGCTGCTGG"] = "v3v3" ∧
    ("v3v3" : String) ≠ "v3" := by
  refine ⟨by decide, by decide, by decide, by decide⟩

/-- C3 amended: each primer's sub-label is looked up independently (empty
string when absent) and the pair collapses to a single copy exactly when
both sub-labels are `"v4"`; every other pair — including identical
non-`"v4"` sub-labels — is concatenated in (forward, reverse) order. -/
theorem region_label_formula :
    ∀ p q : String,
      primers_to_region [p, q] =
        if (PRIMER_TO_REGION.lookup p).getD "" = "v4" ∧
            (PRIMER_TO_REGION.lookup q).getD "" = "v4" then "v4"
        else (PRIMER_TO_REGION.lookup p).getD "" ++
          (PRIMER_TO_REGION.lookup q).getD "" := by
  intro p q
  simp only [primers_to_region, List.getD_cons_zero, List.getD_cons_succ]
  by_cases h : (PRIMER_TO_REGION.lookup p).getD "" = "v4" ∧
      (PRIMER_TO_REGION.lookup q).getD "" = "v4"
  · rw [if_pos h, if_pos h, h.1]
  · rw [if_neg h, if_neg h]

/-- Witness for the amended C3 at a concrete primer pair. -/
theorem region_label_formula_use :
    primers_to_region ["GTGCCAGCMGCCGCGGTAA", "GGACTACHVGGGTWTCTAAT"] = "v4" :=
  (region_label_formula "GTGCCAGCMGCCGCGGTAA" "GGACTACHVGGGTWTCTAAT").trans
    (by decide)

/-- Each symbol of the DNA IUPAC set is its own double complement. -/
lemma dna_comp_invol :
    ∀ c ∈ valid_dna_iupac.data, dnaComplementChar (dnaComplementChar c) = c := by
  decide

/-- Each symbol of the RNA IUPAC set is its own double complement. -/
lemma rna_comp_invol :
    ∀ c ∈ valid_rna_iupac.data, rnaComplementChar (rnaComplementChar c) = c := by
  decide

/-- C5: reverse-complement is an involution on primers whose symbols all
lie in the IUPAC set of the chosen alphabet. -/
theorem reverse_complement_involution :
    ∀ p a : String,
      ((a = "dna" ∧ ∀ c ∈ p.data, c ∈ valid_dna_iupac.data) ∨
       (a = "rna" ∧ ∀ c ∈ p.data, c ∈ valid_rna_iupac.data)) →
      to_reverse_complement (to_reverse_complement p a) a = p := by
  intro p a h
  rcases h with ⟨rfl, hmem⟩ | ⟨rfl, hmem⟩
  · show String.mk ((String.mk ((String.mk ((String.mk
      (p.data.map dnaComplementChar)).data.reverse)).data.map
        dnaComplementChar)).data.reverse) = p
    simp only []
    rw [List.map_reverse, List.reverse_reverse, List.map_map]
    have : p.data.map (dnaComplementChar ∘ dnaComplementChar) = p.data.map id :=
      List.map_congr_left fun c hc => dna_comp_invol c (hmem c hc)
    rw [this, List.map_id]
  · show String.mk ((String.mk ((String.mk ((String.mk
      (p.data.map rnaComplementChar)).data.reverse)).data.map
        rnaComplementChar)).data.reverse) = p
    simp only []
    rw [List.map_reverse, List.reverse_reverse, List.map_map]
    have : p.data.map (rnaComplementChar ∘ rnaComplementChar) = p.data.map id :=
      List.map_congr_left fun c hc => rna_comp_invol c (hmem c hc)
    rw [this, List.map_id]

/-- Witness for C5 at a concrete primer over the full DNA IUPAC set. -/
theorem reverse_complement_involution_use :
    to_reverse_complement (to_reverse_complement "ACGTRYSWKMBDHVN" "dna") "dna" =
      "ACGTRYSWKMBDHVN" :=
  reverse_complement_involution "ACGTRYSWKMBDHVN" "dna" (Or.inl ⟨rfl, by decide⟩)

/-- C6: the classifier returns DNA exactly when every symbol is in the DNA
IUPAC set, RNA exactly when that fails and every symbol is in the RNA
IUPAC set, and indeterminate (`none`) exactly when both fail. -/
theorem sequence_type_classification :
    ∀ s : String,
      (sequence_type s = some Alphabet.Dna ↔
        ∀ c ∈ s.data, c ∈ valid_dna_iupac.data) ∧
      (sequence_type s = some Alphabet.Rna ↔
        (¬ ∀ c ∈ s.data, c ∈ valid_dna_iupac.data) ∧
        ∀ c ∈ s.data, c ∈ valid_rna_iupac.data) ∧
      (sequence_type s = none ↔
        (¬ ∀ c ∈ s.data, c ∈ valid_dna_iupac.data) ∧
        ¬ ∀ c ∈ s.data, c ∈ valid_rna_iupac.data) := by
  intro s
  have hall : ∀ l : List Char,
      ((s.data.all fun x => l.contains x) = true ↔ ∀ c ∈ s.data, c ∈ l) := by
    intro l
    rw [List.all_eq_true]
    simp
  unfold sequence_type
  by_cases h1 : ∀ c ∈ s.data, c ∈ valid_dna_iupac.data
  · rw [if_pos ((hall _).mpr h1)]
    exact ⟨iff_of_true rfl h1,
      iff_of_false (by decide) fun h => h.1 h1,
      iff_of_false (by decide) fun h => h.1 h1⟩
  · rw [if_neg fun h => h1 ((hall _).mp h)]
    by_cases h2 : ∀ c ∈ s.data, c ∈ valid_rna_iupac.data
    · rw [if_pos ((hall _).mpr h2)]
      exact ⟨iff_of_false (by decide) h1,
        iff_of_true rfl ⟨h1, h2⟩,
        iff_of_false (by decide) fun h => h.2 h2⟩
    · rw [if_neg fun h => h2 ((hall _).mp h)]
      exact ⟨iff_of_false (by decide) h1,
        iff_of_false (by decide) fun h => h2 h.2,
        iff_of_true rfl ⟨h1, h2⟩⟩

/-- Witness for C6 at concrete sequences. -/
theorem sequence_type_classification_use :
    sequence_type "ACGT" = some Alphabet.Dna ∧
    sequence_type "ACGU" = some Alphabet.Rna ∧
    sequence_type "AXU" = none :=
  ⟨(sequence_type_classification "ACGT").1.mpr (by decide),
   (sequence_type_classification "ACGU").2.1.mpr (by decide),
   (sequence_type_classification "AXU").2.2.mpr (by decide)⟩

/-- A symbol outside the covered set is fixed by both complement tables. -/
lemma complement_char_unrecognized {c : Char}
    (h : c ∉ coveredComplementChars) :
    dnaComplementChar c = c ∧ rnaComplementChar c = c := by
  simp only [coveredComplementChars, List.mem_cons, not_or,
    List.not_mem_nil, not_false_iff, and_true] at h
  obtain ⟨h1, h2, h3, h4, h5, h6, h7, h8, h9, h10, h11, h12, h13, h14, h15, h16⟩ := h
  constructor
  · simp [dnaComplementChar, h1, h2, h3, h4, h5, h6, h7, h8, h9, h10, h11,
      h12, h13, h14, h15, h16]
  · simp [rnaComplementChar, h1, h2, h3, h4, h5, h6, h7, h8, h9, h10, h11,
      h12, h13, h14, h15, h16]

/-- C8: for alphabet `"dna"` or `"rna"`, a symbol not covered by the
substitution table passes through `to_complement` unchanged at its
position, the transform is total and length-preserving, and
`to_reverse_complement` carries the symbol to the reversed position. -/
theorem unrecognized_passthrough :
    ∀ (p a : String) (c : Char) (i : Nat),
      (a = "dna" ∨ a = "rna") →
      c ∉ coveredComplementChars →
      p.data[i]? = some c →
      (to_complement p a).data[i]? = some c ∧
      (to_complement p a).data.length = p.data.length ∧
      (to_reverse_complement p a).data[p.data.length - 1 - i]? = some c := by
  intro p a c i ha hc hg
  obtain ⟨hd, hr⟩ := complement_char_unrecognized hc
  have hilt : i < p.data.length := (List.getElem?_eq_some.mp hg).1
  have key : ∀ f : Char → Char, f c = c →
      (p.data.map f)[i]? = some c ∧
      (p.data.map f).length = p.data.length ∧
      (p.data.map f).reverse[p.data.length - 1 - i]? = some c := by
    intro f hf
    refine ⟨by rw [List.getElem?_map, hg]; simp [hf], by simp, ?_⟩
    have hj : p.data.length - 1 - i < (p.data.map f).length := by
      simp only [List.length_map]
      omega
    rw [List.getElem?_reverse hj]
    have hidx : (p.data.map f).length - 1 - (p.data.length - 1 - i) = i := by
      simp only [List.length_map]
      omega
    rw [hidx, List.getElem?_map, hg]
    simp [hf]
  rcases ha with rfl | rfl
  · exact key dnaComplementChar hd
  · exact key rnaComplementChar hr

/-- Witness for C8 at a concrete primer containing the symbol X. -/
theorem unrecognized_passthrough_use :
    (to_complement "AXZ" "dna").data[1]? = some 'X' ∧
    (to_complement "AXZ" "dna").data.length = ("AXZ" : String).data.length ∧
    (to_reverse_complement "AXZ" "dna").data[("AXZ" : String).data.length - 1 - 1]? =
      some 'X' :=
  unrecognized_passthrough "AXZ" "dna" 'X' 1 (Or.inl rfl) (by decide) (by decide)

/-- C9: for an alphabet tag that is neither `"dna"` nor `"rna"`, both
transforms return the empty string; in particular the reverse-primer
search pattern of a record whose classification fails is empty. -/
theorem empty_alphabet_empty_pattern :
    ∀ (p a : String) (seq : List Char),
      a ≠ "dna" → a ≠ "rna" →
      to_complement p a = "" ∧ to_reverse_complement p a = "" ∧
      (sequence_type (String.mk seq) = none →
        to_reverse_complement p (alphabetTag seq) = "") := by
  intro p a seq h1 h2
  have hc : to_complement p a = "" := by
    unfold to_complement
    rw [if_neg h1, if_neg h2]
  have hrc : to_reverse_complement p a = "" := by
    unfold to_reverse_complement
    rw [hc]
    rfl
  refine ⟨hc, hrc, ?_⟩
  intro hn
  have htag : alphabetTag seq = "" := by
    unfold alphabetTag
    rw [hn]
  rw [htag]
  unfold to_reverse_complement to_complement
  rw [if_neg (by decide), if_neg (by decide)]
  rfl

/-- Witness for C9 at a concrete primer, tag and unclassifiable record. -/
theorem empty_alphabet_empty_pattern_use :
    to_reverse_complement "AAAA" (alphabetTag ['X']) = "" :=
  (empty_alphabet_empty_pattern "AAAA" "zzz" ['X'] (by decide) (by decide)).2.2
    (by decide)

lemma processPair_miss {seq : List Char} {alphabet : String} {pair : List String}
    {k : Nat}
    (hw1 : (pair.getD 0 "").data.length ≤ 64)
    (hw2 : (to_reverse_complement (pair.getD 1 "") alphabet).data.length ≤ 64)
    (h : bestHit (pair.getD 0 "").data seq k = none ∨
      bestHit (to_reverse_complement (pair.getD 1 "") alphabet).data seq k = none) :
    processPair seq alphabet pair k = Except.ok none := by
  rcases h with hf | hr
  · cases hrc : bestHit (to_reverse_complement (pair.getD 1 "") alphabet).data seq k with
    | none =>
      simp only [processPair, hf, hrc]
      rw [if_neg (by omega), if_neg (by omega)]
    | some y =>
      obtain ⟨re, rd⟩ := y
      simp only [processPair, hf, hrc]
      rw [if_neg (by omega), if_neg (by omega)]
  · cases hfc : bestHit (pair.getD 0 "").data seq k with
    | none =>
      simp only [processPair, hfc, hr]
      rw [if_neg (by omega), if_neg (by omega)]
    | some y =>
      obtain ⟨fe, fd⟩ := y
      simp only [processPair, hfc, hr]
      rw [if_neg (by omega), if_neg (by omega)]

/-- C2 (amended): whenever both patterns are within the matcher width, both
best hits exist, and the window is well formed (forward start at most
reverse start plus reverse-primer length, which is at most the sequence
length), the extractor emits exactly the subsequence
`seq[forward_start .. reverse_start + length(reverse primer)]` with the
annotation start and end fields equal to those two offsets. -/
theorem extract_window_emission :
    ∀ (seq : List Char) (alphabet : String) (pair : List String) (k fe fd re rd : Nat),
      (pair.getD 0 "").data.length ≤ 64 →
      (to_reverse_complement (pair.getD 1 "") alphabet).data.length ≤ 64 →
      bestHit (pair.getD 0 "").data seq k = some (fe, fd) →
      bestHit (to_reverse_complement (pair.getD 1 "") alphabet).data seq k =
        some (re, rd) →
      hitStart (pair.getD 0 "").data seq fe ≤
        hitStart (to_reverse_complement (pair.getD 1 "") alphabet).data seq re +
          (pair.getD 1 "").length →
      hitStart (to_reverse_complement (pair.getD 1 "") alphabet).data seq re +
          (pair.getD 1 "").length ≤ seq.length →
      processPair seq alphabet pair k = Except.ok (some
        ⟨primers_to_region pair,
         hitStart (pair.getD 0 "").data seq fe,
         hitStart (to_reverse_complement (pair.getD 1 "") alphabet).data seq re +
           (pair.getD 1 "").length,
         (seq.drop (hitStart (pair.getD 0 "").data seq fe)).take
           (hitStart (to_reverse_complement (pair.getD 1 "") alphabet).data seq re +
             (pair.getD 1 "").length -
             hitStart (pair.getD 0 "").data seq fe)⟩) := by
  intro seq alphabet pair k fe fd re rd hw1 hw2 hf hr hb1 hb2
  simp only [processPair, hf, hr]
  rw [if_neg (by omega), if_neg (by omega), if_pos ⟨hb1, hb2⟩]

/-- C2 counterexample: on this record both the forward primer and the
reverse-complemented reverse primer have a best hit, yet nothing is
emitted — the forward start lies past the reverse window end and the slice
panics. -/
theorem extract_window_claim_cex :
    bestHit ("AAAA" : String).data "CCCCTTAAAA".data 0 = some (9, 0) ∧
    bestHit (to_reverse_complement "GGGG" (alphabetTag "CCCCTTAAAA".data)).data
      "CCCCTTAAAA".data 0 = some (3, 0) ∧
    processPair "CCCCTTAAAA".data (alphabetTag "CCCCTTAAAA".data)
      ["AAAA", "GGGG"] 0 = Except.error RunError.slicePanic := by
  refine ⟨by decide, by decide, by decide⟩

/-- Witness for the amended C2 at a concrete record and primer pair. -/
theorem extract_window_emission_use :
    processPair "AAAATTCCCC".data "dna" ["AAAA", "GGGG"] 0 =
      Except.ok (some ⟨"", 0, 10, "AAAATTCCCC".data⟩) := by
  have h := extract_window_emission "AAAATTCCCC".data "dna" ["AAAA", "GGGG"] 0
    3 0 9 0 (by decide) (by decide) (by decide) (by decide) (by decide) (by decide)
  exact h.trans (by decide)

/-- C10 (amended): with both patterns within width and both best hits
found, the extraction panics exactly when the window is malformed — when
the forward start exceeds the reverse window end (reverse hit before the
forward hit) or the window end exceeds the sequence length; in-bounds
indices are equivalent to a successful slice, not guaranteed. -/
theorem slice_bounds_iff :
    ∀ (seq : List Char) (alphabet : String) (pair : List String) (k fe fd re rd : Nat),
      (pair.getD 0 "").data.length ≤ 64 →
      (to_reverse_complement (pair.getD 1 "") alphabet).data.length ≤ 64 →
      bestHit (pair.getD 0 "").data seq k = some (fe, fd) →
      bestHit (to_reverse_complement (pair.getD 1 "") alphabet).data seq k =
        some (re, rd) →
      (processPair seq alphabet pair k = Except.error RunError.slicePanic ↔
        ¬(hitStart (pair.getD 0 "").data seq fe ≤
            hitStart (to_reverse_complement (pair.getD 1 "") alphabet).data seq re +
              (pair.getD 1 "").length ∧
          hitStart (to_reverse_complement (pair.getD 1 "") alphabet).data seq re +
            (pair.getD 1 "").length ≤ seq.length)) := by
  intro seq alphabet pair k fe fd re rd hw1 hw2 hf hr
  simp only [processPair, hf, hr]
  rw [if_neg (by omega), if_neg (by omega)]
  by_cases hb : hitStart (pair.getD 0 "").data seq fe ≤
      hitStart (to_reverse_complement (pair.getD 1 "") alphabet).data seq re +
        (pair.getD 1 "").length ∧
      hitStart (to_reverse_complement (pair.getD 1 "") alphabet).data seq re +
        (pair.getD 1 "").length ≤ seq.length
  · rw [if_pos hb]
    exact iff_of_false (by simp) (not_not_intro hb)
  · rw [if_neg hb]
    exact iff_of_true rfl hb

/-- C10 counterexample: both best hits are found, but the reverse hit lies
before the forward hit, the window `[6, 4)` is malformed and the slice
panics instead of being in bounds. -/
theorem slice_bounds_cex :
    bestHit ("GGGG" : String).data "TTTTCCGGGG".data 0 = some (9, 0) ∧
    bestHit (to_reverse_complement "AAAA" "dna").data "TTTTCCGGGG".data 0 =
      some (3, 0) ∧
    hitStart ("GGGG" : String).data "TTTTCCGGGG".data 9 = 6 ∧
    hitStart (to_reverse_complement "AAAA" "dna").data "TTTTCCGGGG".data 3 +
      ("AAAA" : String).length = 4 ∧
    ¬(6 ≤ 4) ∧
    processPair "TTTTCCGGGG".data "dna" ["GGGG", "AAAA"] 0 =
      Except.error RunError.slicePanic := by
  refine ⟨by decide, by decide, by decide, by decide, by decide, by decide⟩

/-- Witness for the amended C10 at a concrete record and primer pair. -/
theorem slice_bounds_iff_use :
    processPair "TTTTCCGGGG".data "dna" ["GGGG", "AAAA"] 0 =
      Except.error RunError.slicePanic :=
  (slice_bounds_iff "TTTTCCGGGG".data "dna" ["GGGG", "AAAA"] 0 9 0 3 0
    (by decide) (by decide) (by decide) (by decide)).mpr (by decide)

/-- C7: a missing best hit (forward, reverse, or both) yields no emission
and no error for that pair, the remaining pairs of the record are processed
as if the pair were absent, and a record that finishes without error lets
the remaining records be processed unchanged. -/
theorem match_miss_nonfatal :
    (∀ (seq : List Char) (alphabet : String) (pair : List String) (k : Nat),
      (pair.getD 0 "").data.length ≤ 64 →
      (to_reverse_complement (pair.getD 1 "") alphabet).data.length ≤ 64 →
      (bestHit (pair.getD 0 "").data seq k = none ∨
        bestHit (to_reverse_complement (pair.getD 1 "") alphabet).data seq k = none) →
      processPair seq alphabet pair k = Except.ok none) ∧
    (∀ (seq : List Char) (alphabet : String) (pair : List String) (k : Nat)
        (rest : List (List String)),
      (pair.getD 0 "").data.length ≤ 64 →
      (to_reverse_complement (pair.getD 1 "") alphabet).data.length ≤ 64 →
      (bestHit (pair.getD 0 "").data seq k = none ∨
        bestHit (to_reverse_complement (pair.getD 1 "") alphabet).data seq k = none) →
      processPairs seq alphabet k (pair :: rest) = processPairs seq alphabet k rest) ∧
    (∀ (pairs : List (List String)) (k : Nat) (seq : List Char)
        (rs : List (List Char)) (ems : List Emission),
      processPairs seq (alphabetTag seq) k pairs = (ems, none) →
      runRecords pairs k (seq :: rs) =
        (ems ++ (runRecords pairs k rs).1, (runRecords pairs k rs).2)) := by
  refine ⟨fun seq alphabet pair k hw1 hw2 h => processPair_miss hw1 hw2 h, ?_, ?_⟩
  · intro seq alphabet pair k rest hw1 hw2 h
    simp only [processPairs, processPair_miss hw1 hw2 h]
  · intro pairs k seq rs ems h
    simp only [runRecords, h]

/-- Witness for C7 at a record containing neither primer. -/
theorem match_miss_nonfatal_use :
    processPair "TTTTTTTT".data "dna" ["AAAA", "GGGG"] 0 = Except.ok none :=
  match_miss_nonfatal.1 "TTTTTTTT".data "dna" ["AAAA", "GGGG"] 0
    (by decide) (by decide) (Or.inl (by decide))

/-- C4 (amended): building the matcher for an over-wide pattern (forward,
or reverse-complemented reverse) is a configuration error raised before any
scan with that pattern, never a mid-scan panic; it aborts the run at the
first record when the offending pair is first in the list, but a run over
zero records never reaches the check and succeeds. -/
theorem pattern_width_setup :
    (∀ (seq : List Char) (alphabet : String) (pair : List String) (k : Nat),
      64 < (pair.getD 0 "").data.length →
      processPair seq alphabet pair k = Except.error RunError.patternTooLong) ∧
    (∀ (seq : List Char) (alphabet : String) (pair : List String) (k : Nat),
      (pair.getD 0 "").data.length ≤ 64 →
      64 < (to_reverse_complement (pair.getD 1 "") alphabet).data.length →
      processPair seq alphabet pair k = Except.error RunError.patternTooLong) ∧
    (∀ (p0 : List String) (ps : List (List String)) (k : Nat) (r : List Char)
        (rs : List (List Char)),
      64 < (p0.getD 0 "").data.length →
      runRecords (p0 :: ps) k (r :: rs) = ([], some RunError.patternTooLong)) := by
  have h1 : ∀ (seq : List Char) (alphabet : String) (pair : List String) (k : Nat),
      64 < (pair.getD 0 "").data.length →
      processPair seq alphabet pair k = Except.error RunError.patternTooLong := by
    intro seq alphabet pair k hw
    unfold processPair
    rw [if_pos hw]
  refine ⟨h1, ?_, ?_⟩
  · intro seq alphabet pair k hw1 hw2
    unfold processPair
    rw [if_neg (by omega), if_pos hw2]
  · intro p0 ps k r rs hw
    simp only [runRecords, processPairs, h1 r (alphabetTag r) p0 k hw]

/-- C4 counterexample: with a 65-symbol forward primer and no records, the
run returns success — it does not fail with a configuration error, because
the width check only runs once a record is processed. -/
theorem pattern_width_no_records_cex :
    64 < (String.mk (List.replicate 65 'A')).data.length ∧
    runRecords [[String.mk (List.replicate 65 'A'), "G"]] 0 [] = ([], none) := by
  refine ⟨by decide, rfl⟩

/-- Witness for the amended C4 at a concrete over-wide primer pair. -/
theorem pattern_width_setup_use :
    processPair [] "dna" [String.mk (List.replicate 65 'A'), "G"] 0 =
      Except.error RunError.patternTooLong :=
  pattern_width_setup.1 [] "dna" [String.mk (List.replicate 65 'A'), "G"] 0
    (by decide)

end Hyperex
